import Mathlib

/-!
Verification development for the `miners` repository.

The repository contains three Python source files:

* `openminers/text_to_embedding/bert/miner.py` — `mean_pooling` and the
  `BertEmbeddingMiner` class (tokenize, model call, masked mean pooling,
  L2 normalization, constant `blacklist`/`priority` hooks);
* `openminers/text_to_text/bloom/miner.py` — the `BloomChatMiner` class
  (`add_args`, `__init__` with a deepspeed and an accelerate branch,
  `_process_history`, `forward`);
* `openminers/base/texttovideo_miner.py` — `BaseTextToVideoMiner.__init__`
  building a delegating inner `Synapse` class.

The numeric pipeline is embedded over an arbitrary linear ordered field
(instantiated at `ℚ` for executable checks and at `ℝ` where the L2 norm,
which needs a square root, is involved).  Python strings are embedded as
`List Char`; Python attribute lookup on `self` is embedded as an `Option`
read that raises `AttributeError` (`Except`) when the attribute was never
assigned.  External library calls (tokenizer, model, deepspeed engine,
generation pipeline) are parameters of the embedded functions.
-/

/-! ## Elementwise tensor operations (torch semantics on lists) -/

/-- Elementwise addition of two 1-D tensors. -/
def vecAdd {α : Type} [LinearOrderedField α] (u v : List α) : List α :=
  List.zipWith (· + ·) u v

/-- Elementwise multiplication of two 1-D tensors
(`token_embeddings * input_mask_expanded`). -/
def vecMul {α : Type} [LinearOrderedField α] (u v : List α) : List α :=
  List.zipWith (· * ·) u v

/-- Elementwise division of two 1-D tensors. -/
def vecDiv {α : Type} [LinearOrderedField α] (u v : List α) : List α :=
  List.zipWith (· / ·) u v

/-- `torch.sum(x, 1)` on one batch row: sum the token vectors of the row,
starting from the zero vector of the hidden size `dim`. -/
def sumDim1 {α : Type} [LinearOrderedField α] (dim : Nat) (rows : List (List α)) : List α :=
  rows.foldl vecAdd (List.replicate dim 0)

/-- `attention_mask.unsqueeze(-1).expand(token_embeddings.size())` on one
batch row: every scalar mask entry becomes a constant vector of size `dim`. -/
def expandMask {α : Type} [LinearOrderedField α] (dim : Nat) (maskRow : List α) : List (List α) :=
  maskRow.map (List.replicate dim)

/-- `torch.clamp(x, min=m)` elementwise. -/
def clampMin {α : Type} [LinearOrderedField α] (m : α) (v : List α) : List α :=
  v.map (fun x => max x m)

/-! ## `mean_pooling` (bert/miner.py, lines 28–37) -/

/-- One batch row of `mean_pooling`: the token embeddings of the row are
multiplied elementwise with the expanded attention mask, summed over the
token dimension, and divided elementwise by the expanded mask's sum clamped
below at `1e-9`. -/
def mean_poolingRow {α : Type} [LinearOrderedField α] (dim : Nat)
    (embRow : List (List α)) (maskRow : List α) : List α :=
  let input_mask_expanded := expandMask dim maskRow
  vecDiv (sumDim1 dim (List.zipWith vecMul embRow input_mask_expanded))
    (clampMin (1 / 10 ^ 9) (sumDim1 dim input_mask_expanded))

/-- `mean_pooling(model_output, attention_mask)`: the batched reduction,
one row per input string.  `emb` is `model_output[0]`
(batch × tokens × hidden), `mask` is the attention mask (batch × tokens). -/
def mean_pooling {α : Type} [LinearOrderedField α] (dim : Nat)
    (emb : List (List (List α))) (mask : List (List α)) : List (List α) :=
  List.zipWith (mean_poolingRow dim) emb mask

/-! ## `F.normalize(x, p=2, dim=1)` (bert/miner.py, line 92) -/

/-- L2 norm of a vector over `ℝ`. -/
noncomputable def l2norm (v : List ℝ) : ℝ :=
  Real.sqrt (v.map (fun x => x ^ 2)).sum

/-- `torch.nn.functional.normalize(v, p=2)` on one row: divide by the norm
clamped below at the default `eps = 1e-12`
(`v / max(‖v‖₂, eps)`). -/
noncomputable def normalizeRow (v : List ℝ) : List ℝ :=
  v.map (fun x => x / max (l2norm v) (1 / 10 ^ 12))

/-- The postprocessing `BertEmbeddingMiner.forward` applies to the model
output (lines 89–93): masked mean pooling followed by row-wise L2
normalization. -/
noncomputable def bertPostprocess (dim : Nat)
    (emb : List (List (List ℝ))) (mask : List (List ℝ)) : List (List ℝ) :=
  (mean_pooling dim emb mask).map normalizeRow

/-! ## `BertEmbeddingMiner.forward` with a fallible model call -/

/-- `BertEmbeddingMiner.forward` (lines 83–93) with the external calls as
parameters: `tokenizer` returns the encoded input (an abstract value of type
`T` handed to the model) together with its attention mask; `model` is the
model invocation, which may fail.  No exception is caught: the result is
the model's error when the model call fails, and the pooled and normalized
embeddings otherwise. -/
noncomputable def bertForwardE {E T : Type}
    (tokenizer : List String → T × List (List ℝ))
    (model : T → Except E (List (List (List ℝ))))
    (dim : Nat) (text : List String) : Except E (List (List ℝ)) := do
  let encoded_input := tokenizer text
  let model_output ← model encoded_input.1
  pure (bertPostprocess dim model_output encoded_input.2)

/-! ## `BertEmbeddingMiner.blacklist` / `.priority` (lines 75–81) -/

/-- The request object handed to the admission hooks
(`bittensor.TextToEmbeddingForwardCall`); its payload is unexamined by the
hooks, which never inspect it. -/
structure TextToEmbeddingForwardCall where
  text : List String

namespace BertEmbeddingMiner

/-- `BertEmbeddingMiner.blacklist`: `return False` (the plain-bool arm of
`Union[Tuple[bool, str], bool]`). -/
def blacklist (forward_call : TextToEmbeddingForwardCall) : (Bool × String) ⊕ Bool :=
  Sum.inr false

/-- `BertEmbeddingMiner.priority`: `return 0.0`. -/
def priority (forward_call : TextToEmbeddingForwardCall) : ℚ :=
  0

end BertEmbeddingMiner

/-! ## Python string primitives used by `BloomChatMiner.forward` -/

/-- Worker for `str.replace(pat, rep)` (Python semantics): scan left to
right; at a position where `pat` matches, emit `rep` and skip the match;
otherwise keep the character.  `fuel` bounds the recursion and is
instantiated with the length of the scanned string, which suffices because
every step consumes at least one character while `pat` is non-empty.  For
the empty pattern the scan is the identity, which agrees with Python's
`str.replace` exactly when `rep` is empty — the only use in this
repository (`.replace(history, "")`). -/
def replaceAllAux (pat rep : List Char) : Nat → List Char → List Char
  | _, [] => []
  | 0, s => s
  | Nat.succ fuel, c :: s =>
    if pat ≠ [] ∧ List.isPrefixOf pat (c :: s) then
      rep ++ replaceAllAux pat rep fuel (List.drop pat.length (c :: s))
    else
      c :: replaceAllAux pat rep fuel s

/-- Python `s.replace(pat, rep)`. -/
def pyReplace (s pat rep : List Char) : List Char :=
  replaceAllAux pat rep s.length s

/-- Python `s.split(sep)[-1]`: the suffix of `s` after the last occurrence
of `sep` (all of `s` when `sep` does not occur). -/
def pySplitLast (sep : Char) (s : List Char) : List Char :=
  (s.reverse.takeWhile (fun c => c ≠ sep)).reverse

/-! ## `BloomChatMiner` (bloom/miner.py) -/

/-- One role-tagged message of a TextPrompt request. -/
structure Message where
  role : String
  content : List Char
deriving DecidableEq

/-- A message whose role is one the transcript formatter recognizes. -/
def recognizedRole (m : Message) : Prop :=
  m.role = "system" ∨ m.role = "assistant" ∨ m.role = "user"

instance (m : Message) : Decidable (recognizedRole m) := by
  unfold recognizedRole
  infer_instance

/-- One loop iteration of `_process_history` (lines 119–125): three
independent `if` statements appending the marked line for the roles
`system`, `assistant` and `user`. -/
def processStep (acc : List Char) (message : Message) : List Char :=
  let acc := if message.role = "system"
    then acc ++ "<human>: ".data ++ message.content ++ "\n".data else acc
  let acc := if message.role = "assistant"
    then acc ++ "<bot>: ".data ++ message.content ++ "\n".data else acc
  if message.role = "user"
    then acc ++ "<human>: ".data ++ message.content ++ "\n".data else acc

/-- The line a single message contributes to the transcript: the
`'<human>: '` marker for the roles `system` and `user`, the `'<bot>: '`
marker for `assistant`, nothing for an unrecognized role. -/
def messageLine (m : Message) : List Char :=
  if m.role = "system" ∨ m.role = "user" then "<human>: ".data ++ m.content ++ "\n".data
  else if m.role = "assistant" then "<bot>: ".data ++ m.content ++ "\n".data
  else []

/-- The Bloom miner's configuration as produced by `add_args`
(lines 34–37). -/
structure BloomConfig where
  deployment_framework : String
  bloom_model_name : String
  bloom_max_new_tokens : Int
deriving DecidableEq

/-- The parser defaults declared in `add_args`. -/
def defaultBloomConfig : BloomConfig :=
  { deployment_framework := "accelerate"
    bloom_model_name := "sambanovasystems/BLOOMChat-176B-v1"
    bloom_max_new_tokens := 100 }

/-- A Python runtime error surfaced by the embedded code. -/
inductive PyErr where
  | attributeError : String → PyErr
deriving DecidableEq

/-- The attribute store of a `BloomChatMiner` instance: one `Option` slot
per attribute name ever read or written through `self` in the class body;
`none` means the attribute was never assigned. -/
structure BloomSelf (Tok Model Engine Pipe : Type) where
  tokenizer : Option Tok := none
  model_name : Option String := none
  model : Option Model := none
  ds_engine : Option Engine := none
  pipe : Option Pipe := none
  local_rank : Option Nat := none

/-- Python attribute read: the stored value, or `AttributeError` when the
attribute was never assigned. -/
def getattrOr {α : Type} (v : Option α) (name : String) : Except PyErr α :=
  match v with
  | some a => Except.ok a
  | none => Except.error (PyErr.attributeError name)

namespace BloomChatMiner

/-- `BloomChatMiner._process_history` (lines 116–126): fold the messages,
appending each recognized message's marked line to the accumulated
transcript. -/
def process_history (history : List Message) : List Char :=
  history.foldl processStep []

/-- `BloomChatMiner.__init__` (lines 40–114) with the external library
calls as parameters.  The locals `model_name` and `tokenizer` are bound
(lines 42–43) but never stored on `self`; only `self.local_rank`,
`self.model`, `self.ds_engine` (deepspeed branch) and `self.model`,
`self.pipe` (accelerate branch) are assigned.  The accelerate branch reads
`self.model_name` (line 106) and `self.tokenizer` (line 111) through
attribute lookups. -/
def init {Tok Model Engine Pipe : Type}
    (autoTokenizer : String → Tok) (autoModelForCausalLM : String → Model)
    (deepspeedEngine : Model → Engine) (mkPipeline : Model → Tok → Pipe)
    (cfg : BloomConfig) : Except PyErr (BloomSelf Tok Model Engine Pipe) :=
  let self : BloomSelf Tok Model Engine Pipe := {}
  let model_name := "sambanovasystems/BLOOMChat-176B-v1"
  let tokenizer := autoTokenizer cfg.bloom_model_name
  if cfg.deployment_framework = "deepspeed" then
    let self := { self with local_rank := some 0 }
    let self := { self with model := some (autoModelForCausalLM cfg.bloom_model_name) }
    do
      let m ← getattrOr self.model "model"
      pure { self with ds_engine := some (deepspeedEngine m) }
  else
    do
      let mn ← getattrOr self.model_name "model_name"
      let self := { self with model := some (autoModelForCausalLM mn) }
      let m ← getattrOr self.model "model"
      let tok ← getattrOr self.tokenizer "tokenizer"
      pure { self with pipe := some (mkPipeline m tok) }

/-- `BloomChatMiner.forward` (lines 128–154) with the external generation
calls as parameters.  `dsGenerate` stands for
`tokenizer.encode → ds_engine.module.generate(max_length=60) → tokenizer.decode`
and `pipeCall` for `self.pipe(..., max_length=200, ...)[0]['generated_text']`;
each receives the formatted transcript and the hard-coded `max_length` of
its branch and may fail.  The deepspeed branch strips the echoed transcript
with `replace`; the accelerate branch first takes the text after the last
`':'` (`split(':')[-1]`), then strips with `replace`.  No exception is
caught. -/
def forward {E : Type} (cfg : BloomConfig)
    (dsGenerate : List Char → Nat → Except E (List Char))
    (pipeCall : List Char → Nat → Except E (List Char))
    (messages : List Message) : Except E (List Char) :=
  let history := process_history messages
  if cfg.deployment_framework = "deepspeed" then do
    let decoded ← dsGenerate history 60
    pure (pyReplace decoded history [])
  else do
    let generated ← pipeCall history 200
    pure (pyReplace (pySplitLast ':' generated) history [])

end BloomChatMiner

/-! ## `BaseTextToVideoMiner.__init__` and its inner `Synapse` class -/

/-- The request object handed to the text-to-video admission hooks
(`bittensor.TextToVideoForwardCall`). -/
structure TextToVideoForwardCall where
  text : String

/-- The enclosing miner instance as the inner `Synapse` class sees it: the
three abstract methods subclasses provide.  `Video` is the type of the
produced video payload. -/
structure BaseTextToVideoMinerIface (Video : Type) where
  forward : String → Nat → Nat → Nat → Video
  blacklist : TextToVideoForwardCall → (Bool × String) ⊕ Bool
  priority : TextToVideoForwardCall → ℚ

/-- The interface of `bittensor.TextToVideoSynapse` that the inner class
implements (lines 57–64): `priority`, `blacklist`, a `backward` whose body
is `pass` (returns `None`), and `forward`. -/
structure TextToVideoSynapse (Video : Type) where
  priority : TextToVideoForwardCall → ℚ
  blacklist : TextToVideoForwardCall → (Bool × String) ⊕ Bool
  backward : Video → String → List ℝ → Option String
  forward : String → Nat → Nat → Nat → Video

/-- The inner `Synapse` class built in `BaseTextToVideoMiner.__init__`
(lines 54–66): each method calls the corresponding method of the enclosing
miner `self`; `backward` does nothing. -/
def mkSynapse {Video : Type} (self : BaseTextToVideoMinerIface Video) :
    TextToVideoSynapse Video :=
  { priority := fun forward_call => self.priority forward_call
    blacklist := fun forward_call => self.blacklist forward_call
    backward := fun _ _ _ => none
    forward := fun text num_inference_steps num_frames fps =>
      self.forward text num_inference_steps num_frames fps }

/-! ## Helper lemmas -/

/-- One `_process_history` iteration appends exactly the message's line. -/
theorem processStep_eq (acc : List Char) (m : Message) :
    processStep acc m = acc ++ messageLine m := by
  unfold processStep messageLine
  by_cases h1 : m.role = "system"
  · simp [h1, List.append_assoc]
  · by_cases h2 : m.role = "assistant"
    · simp [h2, List.append_assoc]
    · by_cases h3 : m.role = "user"
      · simp [h3, List.append_assoc]
      · simp [h1, h2, h3]

/-- Folding `_process_history` from any accumulator appends the joined
message lines. -/
theorem foldl_processStep_eq (ms : List Message) (acc : List Char) :
    ms.foldl processStep acc = acc ++ (ms.map messageLine).flatten := by
  induction ms generalizing acc with
  | nil => simp
  | cons m ms ih => simp [ih, processStep_eq, List.append_assoc]

/-- `_process_history` is the concatenation of the per-message lines. -/
theorem process_history_eq_join (ms : List Message) :
    BloomChatMiner.process_history ms = (ms.map messageLine).flatten := by
  simpa using foldl_processStep_eq ms []

/-- Replacing a pattern by the empty string only removes characters: every
character of the result occurs in the scanned string. -/
theorem replaceAllAux_subset (pat : List Char) (fuel : Nat) (s : List Char) :
    ∀ c ∈ replaceAllAux pat [] fuel s, c ∈ s := by
  induction fuel generalizing s with
  | zero => cases s <;> simp [replaceAllAux]
  | succ n ih =>
    cases s with
    | nil => simp [replaceAllAux]
    | cons a t =>
      rw [replaceAllAux]
      split
      · intro c hc
        rw [List.nil_append] at hc
        exact List.mem_of_mem_drop (ih _ c hc)
      · intro c hc
        rcases List.mem_cons.mp hc with h | h
        · exact List.mem_cons.mpr (Or.inl h)
        · exact List.mem_cons.mpr (Or.inr (ih t c h))

/-- The separator does not occur in `split(sep)[-1]`. -/
theorem pySplitLast_not_mem (sep : Char) (s : List Char) :
    sep ∉ pySplitLast sep s := by
  intro h
  rw [pySplitLast, List.mem_reverse] at h
  have := List.mem_takeWhile_imp h
  simp at this

/-- A recognized message's line contains a colon. -/
theorem colon_mem_messageLine (m : Message) (h : recognizedRole m) :
    ':' ∈ messageLine m := by
  rcases h with h | h | h <;> simp [messageLine, h]

/-- The formatted transcript of a message list containing a recognized
message contains a colon. -/
theorem colon_mem_process_history (ms : List Message)
    (h : ∃ m ∈ ms, recognizedRole m) : ':' ∈ BloomChatMiner.process_history ms := by
  rcases h with ⟨m, hm, hrec⟩
  rw [process_history_eq_join, List.mem_flatten]
  exact ⟨messageLine m, List.mem_map_of_mem messageLine hm, colon_mem_messageLine m hrec⟩

/-- `zipWith` only depends on the function's values on members. -/
theorem zipWith_congr_mem {α β γ : Type} (f g : α → β → γ) (l₁ : List α) (l₂ : List β)
    (h : ∀ a ∈ l₁, ∀ b ∈ l₂, f a b = g a b) :
    List.zipWith f l₁ l₂ = List.zipWith g l₁ l₂ := by
  induction l₁ generalizing l₂ with
  | nil => simp
  | cons a t ih => cases l₂ <;> simp_all

/-- Zipping a short list against a long enough constant list is a map. -/
theorem zipWith_replicate_right_of_le {α β γ : Type} (f : α → β → γ)
    (u : List α) (n : Nat) (c : β) (h : u.length ≤ n) :
    List.zipWith f u (List.replicate n c) = u.map (fun a => f a c) := by
  induction u generalizing n with
  | nil => simp
  | cons a t ih =>
    cases n with
    | zero => simp at h
    | succ n => simp [List.replicate_succ, ih n (by simpa using h)]

/-- Summing constant vectors accumulates the scalar sum in every slot. -/
theorem foldl_vecAdd_replicate {α : Type} [LinearOrderedField α]
    (dim : Nat) (mr : List α) (a : α) :
    (mr.map (List.replicate dim)).foldl vecAdd (List.replicate dim a) =
      List.replicate dim (a + mr.sum) := by
  induction mr generalizing a with
  | nil => simp
  | cons m t ih =>
    simp only [List.map_cons, List.foldl_cons, List.sum_cons, vecAdd,
      List.zipWith_replicate', ih, add_assoc]

/-- The expanded attention mask sums (over the token dimension) to the
constant vector holding the mask's total. -/
theorem sumDim1_expandMask {α : Type} [LinearOrderedField α] (dim : Nat) (mr : List α) :
    sumDim1 dim (expandMask dim mr) = List.replicate dim mr.sum := by
  unfold sumDim1 expandMask
  simpa using foldl_vecAdd_replicate dim mr 0

/-- Elementwise sums never grow beyond the accumulator's width. -/
theorem foldl_vecAdd_length_le {α : Type} [LinearOrderedField α]
    (rows : List (List α)) (acc : List α) :
    (rows.foldl vecAdd acc).length ≤ acc.length := by
  induction rows generalizing acc with
  | nil => simp
  | cons r t ih =>
    exact le_trans (ih (vecAdd acc r)) (by simp [vecAdd])

/-- Closed form of one `mean_pooling` row: the mask-weighted sum of the
token vectors, divided slotwise by the mask total clamped below at
`1e-9`. -/
theorem mean_poolingRow_eq {α : Type} [LinearOrderedField α] (dim : Nat)
    (er : List (List α)) (mr : List α) (hdim : ∀ v ∈ er, v.length = dim) :
    mean_poolingRow dim er mr =
      (sumDim1 dim (List.zipWith (fun v m => v.map (fun e => e * m)) er mr)).map
        (fun x => x / max mr.sum (1 / 10 ^ 9)) := by
  simp only [mean_poolingRow]
  have hexp : List.zipWith vecMul er (expandMask dim mr) =
      List.zipWith (fun v m => v.map (fun e => e * m)) er mr := by
    unfold expandMask
    rw [List.zipWith_map_right]
    refine zipWith_congr_mem _ _ er mr (fun v hv m _ => ?_)
    exact zipWith_replicate_right_of_le (· * ·) v dim m (le_of_eq (hdim v hv))
  rw [hexp, sumDim1_expandMask]
  have hden : clampMin (1 / 10 ^ 9) (List.replicate dim mr.sum) =
      List.replicate dim (max mr.sum (1 / 10 ^ 9)) := by
    simp [clampMin]
  rw [hden]
  unfold vecDiv
  exact zipWith_replicate_right_of_le (· / ·) _ dim _
    (le_trans (foldl_vecAdd_length_le _ _) (by simp))

/-- A sum of all-zero rows is the zero vector. -/
theorem sumDim1_zero_rows {α : Type} [LinearOrderedField α] (dim : Nat)
    (rows : List (List α)) (h : ∀ r ∈ rows, r = List.replicate dim 0) :
    sumDim1 dim rows = List.replicate dim 0 := by
  unfold sumDim1
  induction rows with
  | nil => simp
  | cons r t ih =>
    rw [List.foldl_cons, h r (List.mem_cons_self r t)]
    have : vecAdd (List.replicate dim 0) (List.replicate dim 0) =
        List.replicate dim (0 : α) := by
      simp [vecAdd]
    rw [this]
    exact ih (fun r hr => h r (List.mem_cons_of_mem _ hr))

/-- Dividing every summand divides the sum. -/
theorem sum_map_div (l : List ℝ) (d : ℝ) :
    (l.map (fun x => x / d)).sum = l.sum / d := by
  induction l with
  | nil => simp
  | cons a t ih => simp [ih, add_div]

/-- A sum of squares is nonnegative. -/
theorem sum_sq_nonneg (v : List ℝ) : 0 ≤ (v.map (fun x => x ^ 2)).sum := by
  refine List.sum_nonneg ?_
  intro x hx
  rcases List.mem_map.mp hx with ⟨y, _, rfl⟩
  positivity

/-- Rows whose norm reaches the `eps` floor are scaled exactly to unit
norm by `F.normalize(p=2)`. -/
theorem l2norm_normalizeRow (v : List ℝ) (h : 1 / 10 ^ 12 ≤ l2norm v) :
    l2norm (normalizeRow v) = 1 := by
  have hN : 0 < l2norm v := lt_of_lt_of_le (by norm_num) h
  have hmax : max (l2norm v) (1 / 10 ^ 12) = l2norm v := max_eq_left h
  set N := l2norm v with hNdef
  have hS : Real.sqrt (v.map (fun x => x ^ 2)).sum = N := by
    rw [hNdef, l2norm]
  unfold normalizeRow
  rw [← hNdef, hmax]
  unfold l2norm
  rw [List.map_map]
  have hcomp : ((fun x => x ^ 2) ∘ fun x => x / N) = fun x => x ^ 2 / N ^ 2 := by
    funext x
    exact div_pow x N 2
  rw [hcomp]
  have hmapdiv : v.map (fun x => x ^ 2 / N ^ 2) =
      (v.map (fun x => x ^ 2)).map (fun y => y / N ^ 2) := by
    rw [List.map_map]
    rfl
  rw [hmapdiv, sum_map_div, Real.sqrt_div (sum_sq_nonneg v), Real.sqrt_sq hN.le,
    hS, div_self hN.ne']

/-- `getD` with the empty-row default commutes with the normalization
map. -/
theorem getD_map_normalizeRow (l : List (List ℝ)) (i : Nat) :
    (l.map normalizeRow).getD i [] = normalizeRow (l.getD i []) := by
  induction l generalizing i with
  | nil => simp [normalizeRow]
  | cons a t ih =>
    cases i with
    | zero => simp
    | succ n => simpa using ih n

/-- A member of a constant `zipWith` is the constant. -/
theorem eq_of_mem_zipWith_const {α β γ : Type} {l₁ : List α} {l₂ : List β}
    {c r : γ} (hr : r ∈ List.zipWith (fun _ _ => c) l₁ l₂) : r = c := by
  induction l₁ generalizing l₂ with
  | nil => simp at hr
  | cons a t ih =>
    cases l₂ with
    | nil => simp at hr
    | cons b u =>
      rcases List.mem_cons.mp hr with h | h
      · exact h
      · exact ih h

/-! ## Claim theorems -/

/-- C5: `BertEmbeddingMiner.blacklist` returns the reject decision `False`
and `BertEmbeddingMiner.priority` returns exactly `0.0`, for arbitrary
forward-call input: both are constant functions of their argument. -/
theorem bert_blacklist_priority_stub :
    ∀ fc : TextToEmbeddingForwardCall,
      BertEmbeddingMiner.blacklist fc = Sum.inr false ∧
      BertEmbeddingMiner.priority fc = 0 :=
  fun _ => ⟨rfl, rfl⟩

/-- C6: `_process_history` returns the in-order concatenation of one line
per recognized message — `'<human>: ' ++ content ++ '\n'` for the roles
`system` and `user`, `'<bot>: ' ++ content ++ '\n'` for `assistant` — and
the empty list yields the empty string. -/
theorem process_history_concat :
    (∀ ms : List Message,
        BloomChatMiner.process_history ms = (ms.map messageLine).flatten) ∧
      BloomChatMiner.process_history [] = [] :=
  ⟨process_history_eq_join, rfl⟩

/-- C7: the inner `Synapse` class of `BaseTextToVideoMiner.__init__` is
pure delegation: its `forward`, `blacklist` and `priority` return exactly
the enclosing miner's corresponding methods' results, and its `backward`
is a no-op returning `None`. -/
theorem texttovideo_synapse_delegates :
    ∀ (Video : Type) (self : BaseTextToVideoMinerIface Video)
      (text : String) (num_inference_steps num_frames fps : Nat)
      (fc : TextToVideoForwardCall) (video : Video) (t : String) (rewards : List ℝ),
      (mkSynapse self).forward text num_inference_steps num_frames fps =
          self.forward text num_inference_steps num_frames fps ∧
        (mkSynapse self).blacklist fc = self.blacklist fc ∧
        (mkSynapse self).priority fc = self.priority fc ∧
        (mkSynapse self).backward video t rewards = none :=
  fun _ _ _ _ _ _ _ _ _ _ => ⟨rfl, rfl, rfl, rfl⟩

/-- C9: whenever the configured deployment framework is not `deepspeed`
(in particular for the default `accelerate`), constructing a
`BloomChatMiner` fails with `AttributeError` on `model_name`: the
accelerate branch reads `self.model_name`, which no code path ever
assigns, before the generation pipeline is built. -/
theorem bloom_accelerate_init_attribute_error
    {Tok Model Engine Pipe : Type}
    (autoTokenizer : String → Tok) (autoModelForCausalLM : String → Model)
    (deepspeedEngine : Model → Engine) (mkPipeline : Model → Tok → Pipe)
    (cfg : BloomConfig) (h : cfg.deployment_framework ≠ "deepspeed") :
    BloomChatMiner.init autoTokenizer autoModelForCausalLM deepspeedEngine
        mkPipeline cfg =
      Except.error (PyErr.attributeError "model_name") := by
  unfold BloomChatMiner.init
  rw [if_neg h]
  rfl

/-- Witness for C9 at the parser-default configuration. -/
theorem bloom_accelerate_init_attribute_error_witness :
    defaultBloomConfig.deployment_framework ≠ "deepspeed" ∧
      BloomChatMiner.init (fun _ => ()) (fun _ => ()) (fun _ => ())
          (fun _ _ => ()) defaultBloomConfig =
        Except.error (PyErr.attributeError "model_name") :=
  ⟨by decide,
    bloom_accelerate_init_attribute_error (fun _ => ()) (fun _ => ())
      (fun _ => ()) (fun _ _ => ()) defaultBloomConfig (by decide)⟩

/-- C10: `--bloom.max_new_tokens` has no effect on generation: two
configurations that agree on every other field make
`BloomChatMiner.forward` behave identically, because each branch generates
with its hard-coded `max_length` (60 for deepspeed, 200 for accelerate)
and never reads the flag. -/
theorem bloom_max_new_tokens_unused {E : Type} (cfg₁ cfg₂ : BloomConfig)
    (dsGenerate pipeCall : List Char → Nat → Except E (List Char))
    (ms : List Message)
    (h1 : cfg₁.deployment_framework = cfg₂.deployment_framework)
    (h2 : cfg₁.bloom_model_name = cfg₂.bloom_model_name) :
    BloomChatMiner.forward cfg₁ dsGenerate pipeCall ms =
      BloomChatMiner.forward cfg₂ dsGenerate pipeCall ms := by
  unfold BloomChatMiner.forward
  rw [h1]

/-- Witness for C10: the default configuration against the same
configuration with `bloom.max_new_tokens` changed to `5`. -/
theorem bloom_max_new_tokens_unused_witness :
    defaultBloomConfig.deployment_framework =
        ({ defaultBloomConfig with bloom_max_new_tokens := 5 } :
          BloomConfig).deployment_framework ∧
      defaultBloomConfig.bloom_model_name =
        ({ defaultBloomConfig with bloom_max_new_tokens := 5 } :
          BloomConfig).bloom_model_name ∧
      BloomChatMiner.forward defaultBloomConfig
          (fun _ _ => (Except.ok [] : Except Unit (List Char)))
          (fun _ _ => Except.ok []) [] =
        BloomChatMiner.forward { defaultBloomConfig with bloom_max_new_tokens := 5 }
          (fun _ _ => Except.ok []) (fun _ _ => Except.ok []) [] :=
  ⟨rfl, rfl,
    bloom_max_new_tokens_unused defaultBloomConfig
      { defaultBloomConfig with bloom_max_new_tokens := 5 }
      (fun _ _ => Except.ok []) (fun _ _ => Except.ok []) [] rfl rfl⟩

/-- C8: a failing model invocation propagates out of `forward` unchanged
in both adapters: `BertEmbeddingMiner.forward` returns the model call's
error, and `BloomChatMiner.forward` returns the generation call's error in
whichever branch the configuration selects; neither catches, retries or
substitutes a fallback. -/
theorem forward_propagates_model_error {E E2 T : Type}
    (tokenizer : List String → T × List (List ℝ))
    (model : T → Except E (List (List (List ℝ))))
    (dim : Nat) (text : List String) (e : E)
    (cfg : BloomConfig)
    (dsGenerate pipeCall : List Char → Nat → Except E2 (List Char))
    (ms : List Message) (e2 : E2)
    (hbert : model (tokenizer text).1 = Except.error e)
    (hgen : dsGenerate (BloomChatMiner.process_history ms) 60 = Except.error e2)
    (hpipe : pipeCall (BloomChatMiner.process_history ms) 200 = Except.error e2) :
    bertForwardE tokenizer model dim text = Except.error e ∧
      BloomChatMiner.forward cfg dsGenerate pipeCall ms = Except.error e2 := by
  constructor
  · simp only [bertForwardE, hbert]
    rfl
  · simp only [BloomChatMiner.forward]
    by_cases h : cfg.deployment_framework = "deepspeed"
    · rw [if_pos h, hgen]
      rfl
    · rw [if_neg h, hpipe]
      rfl

/-- Witness for C8 with concrete always-failing model calls. -/
theorem forward_propagates_model_error_witness :
    (fun _ : Unit => (Except.error 7 : Except Nat (List (List (List ℝ)))))
        ((fun _ : List String => ((), ([] : List (List ℝ)))) ["x"]).1 =
      Except.error 7 ∧
    (fun _ : List Char => fun _ : Nat =>
        (Except.error 9 : Except Nat (List Char)))
        (BloomChatMiner.process_history []) 60 = Except.error 9 ∧
    bertForwardE (fun _ : List String => ((), ([] : List (List ℝ))))
        (fun _ : Unit => Except.error 7) 1 ["x"] = Except.error 7 ∧
    BloomChatMiner.forward defaultBloomConfig
        (fun _ _ => Except.error 9) (fun _ _ => Except.error 9) [] =
      Except.error 9 := by
  refine ⟨rfl, rfl, ?_⟩
  exact forward_propagates_model_error _ _ 1 ["x"] 7 defaultBloomConfig
    (fun _ _ => Except.error 9) (fun _ _ => Except.error 9) [] 9 rfl rfl rfl

/-- C2: per input row, `mean_pooling` returns the sum of the token vectors
weighted elementwise by the attention mask, divided by the row's mask
total floored at `1e-9`, so the division is always defined; and
`BertEmbeddingMiner.forward` applies exactly this reduction to the model
output before normalization. -/
theorem mean_pooling_closed_form (dim : Nat) (er : List (List ℚ)) (mr : List ℚ)
    (emb : List (List (List ℝ))) (mask : List (List ℝ))
    (hdim : ∀ v ∈ er, v.length = dim) :
    mean_poolingRow dim er mr =
        (sumDim1 dim (List.zipWith (fun v m => v.map (fun e => e * m)) er mr)).map
          (fun x => x / max mr.sum (1 / 10 ^ 9)) ∧
      bertPostprocess dim emb mask = (mean_pooling dim emb mask).map normalizeRow :=
  ⟨mean_poolingRow_eq dim er mr hdim, rfl⟩

/-- Witness for C2 on a concrete two-token row. -/
theorem mean_pooling_closed_form_witness :
    (∀ v ∈ ([[2], [4]] : List (List ℚ)), v.length = 1) ∧
      mean_poolingRow 1 ([[2], [4]] : List (List ℚ)) [1, 0] =
        (sumDim1 1 (List.zipWith (fun v m => v.map (fun e => e * m))
            ([[2], [4]] : List (List ℚ)) [1, 0])).map
          (fun x => x / max ([1, 0] : List ℚ).sum (1 / 10 ^ 9)) ∧
      mean_poolingRow 1 ([[2], [4]] : List (List ℚ)) [1, 0] = [2] :=
  ⟨by decide,
    (mean_pooling_closed_form 1 [[2], [4]] [1, 0] [] [] (by decide)).1,
    by norm_num [mean_poolingRow, expandMask, vecMul, vecDiv, sumDim1, clampMin, vecAdd]⟩

/-- C3: for a fully masked row (attention mask zero everywhere), the
clamped denominator is strictly positive, the pooled row is the zero
vector, and it stays the (finite) zero vector through normalization — no
division by zero occurs anywhere in the pipeline. -/
theorem mean_pooling_all_masked_safe (dim : Nat) (er : List (List ℝ)) (mr : List ℝ)
    (hdim : ∀ v ∈ er, v.length = dim) (hmask : ∀ m ∈ mr, m = 0) :
    mean_poolingRow dim er mr = List.replicate dim 0 ∧
      (0 : ℝ) < max mr.sum (1 / 10 ^ 9) ∧
      normalizeRow (mean_poolingRow dim er mr) = List.replicate dim 0 := by
  have hsum : mr.sum = 0 := List.sum_eq_zero hmask
  have hrow : mean_poolingRow dim er mr = List.replicate dim 0 := by
    rw [mean_poolingRow_eq dim er mr hdim]
    have hw : List.zipWith (fun v m => v.map (fun e => e * m)) er mr =
        List.zipWith (fun _ _ => List.replicate dim (0 : ℝ)) er mr := by
      refine zipWith_congr_mem _ _ er mr (fun v hv m hm => ?_)
      rw [hmask m hm]
      simp only [mul_zero, List.map_const']
      rw [hdim v hv]
    rw [hw, sumDim1_zero_rows dim _ (fun r hr => eq_of_mem_zipWith_const hr)]
    simp
  refine ⟨hrow, ?_, ?_⟩
  · rw [hsum]
    norm_num
  · rw [hrow]
    unfold normalizeRow
    simp

/-- C1 (amended): every row of the tensor returned by
`BertEmbeddingMiner.forward` whose pooled vector has L2 norm at least the
normalization floor `eps = 1e-12` has L2 norm exactly 1 after the
`p=2` normalization step. -/
theorem bert_output_rows_unit_norm (dim : Nat) (emb : List (List (List ℝ)))
    (mask : List (List ℝ)) (i : Nat)
    (h : 1 / 10 ^ 12 ≤ l2norm ((mean_pooling dim emb mask).getD i [])) :
    l2norm ((bertPostprocess dim emb mask).getD i []) = 1 := by
  unfold bertPostprocess
  rw [getD_map_normalizeRow]
  exact l2norm_normalizeRow _ h

/-- Witness for C1 on a concrete one-token input. -/
theorem bert_output_rows_unit_norm_witness :
    1 / 10 ^ 12 ≤ l2norm ((mean_pooling 1 [[[(1 : ℝ)]]] [[1]]).getD 0 []) ∧
      l2norm ((bertPostprocess 1 [[[(1 : ℝ)]]] [[1]]).getD 0 []) = 1 := by
  have hpool : (mean_pooling 1 [[[(1 : ℝ)]]] [[1]]).getD 0 [] = [1] := by
    norm_num [mean_pooling, mean_poolingRow, expandMask, vecMul, vecDiv,
      sumDim1, clampMin, vecAdd]
  have h : 1 / 10 ^ 12 ≤ l2norm ((mean_pooling 1 [[[(1 : ℝ)]]] [[1]]).getD 0 []) := by
    rw [hpool]
    have : l2norm [(1 : ℝ)] = 1 := by simp [l2norm]
    rw [this]
    norm_num
  exact ⟨h, bert_output_rows_unit_norm 1 [[[1]]] [[1]] 0 h⟩

/-- Counterexample to C1 as stated: for the model output `[[[1e-13]]]`
with attention mask `[[1]]` the pooled row `[1e-13]` is nonzero, yet the
returned row has L2 norm `1/10`, not 1 — `F.normalize` divides by
`max(‖v‖, 1e-12)`, so a nonzero pooled vector below the `eps` floor is
not unit-normalized. -/
theorem bert_unit_norm_counterexample :
    (mean_pooling 1 [[[(1 : ℝ) / 10 ^ 13]]] [[1]]).getD 0 [] ≠ List.replicate 1 0 ∧
      l2norm ((bertPostprocess 1 [[[(1 : ℝ) / 10 ^ 13]]] [[1]]).getD 0 []) ≠ 1 := by
  have hpool : (mean_pooling 1 [[[(1 : ℝ) / 10 ^ 13]]] [[1]]).getD 0 [] =
      [(1 : ℝ) / 10 ^ 13] := by
    norm_num [mean_pooling, mean_poolingRow, expandMask, vecMul, vecDiv,
      sumDim1, clampMin, vecAdd]
  have hnorm : l2norm [(1 : ℝ) / 10 ^ 13] = 1 / 10 ^ 13 := by
    simp only [l2norm, List.map_cons, List.map_nil, List.sum_cons, List.sum_nil,
      add_zero]
    rw [Real.sqrt_sq (by norm_num)]
  constructor
  · rw [hpool]
    intro hcontra
    have := List.head_eq_of_cons_eq hcontra
    norm_num at this
  · unfold bertPostprocess
    rw [getD_map_normalizeRow, hpool]
    unfold normalizeRow
    rw [hnorm]
    have hmax : max ((1 : ℝ) / 10 ^ 13) (1 / 10 ^ 12) = 1 / 10 ^ 12 :=
      max_eq_right (by norm_num)
    rw [hmax]
    have hentry : ((1 : ℝ) / 10 ^ 13) / (1 / 10 ^ 12) = 1 / 10 := by norm_num
    simp only [List.map_cons, List.map_nil, hentry]
    have : l2norm [(1 : ℝ) / 10] = 1 / 10 := by
      simp only [l2norm, List.map_cons, List.map_nil, List.sum_cons, List.sum_nil,
        add_zero]
      rw [Real.sqrt_sq (by norm_num)]
    rw [this]
    norm_num

/-- Witness for C3 on a concrete fully masked row. -/
theorem mean_pooling_all_masked_safe_witness :
    (∀ v ∈ ([[5]] : List (List ℝ)), v.length = 1) ∧
      (∀ m ∈ ([0] : List ℝ), m = 0) ∧
      mean_poolingRow 1 ([[5]] : List (List ℝ)) [0] = List.replicate 1 0 ∧
      (0 : ℝ) < max ([0] : List ℝ).sum (1 / 10 ^ 9) ∧
      normalizeRow (mean_poolingRow 1 ([[5]] : List (List ℝ)) [0]) =
        List.replicate 1 0 :=
  ⟨by simp, by simp,
    mean_pooling_all_masked_safe 1 [[5]] [0] (by simp) (by simp)⟩

/-- C4 (amended): both branches of `BloomChatMiner.forward` strip the
formatted transcript from the model output with `replace`; in the
accelerate branch this guarantees, for any message list containing at
least one recognized message, that the returned text never contains the
transcript as a prefix (the returned text contains no colon while the
transcript does).  In the deepspeed branch an adversarial decoded output
can still yield the transcript as a prefix, because removing
non-overlapping occurrences can recreate the pattern. -/
theorem bloom_accelerate_no_transcript_echo {E : Type} (cfg : BloomConfig)
    (dsGenerate pipeCall : List Char → Nat → Except E (List Char))
    (ms : List Message) (r : List Char)
    (hfr : cfg.deployment_framework ≠ "deepspeed")
    (hrec : ∃ m ∈ ms, recognizedRole m)
    (hres : BloomChatMiner.forward cfg dsGenerate pipeCall ms = Except.ok r) :
    ¬ BloomChatMiner.process_history ms <+: r := by
  simp only [BloomChatMiner.forward] at hres
  rw [if_neg hfr] at hres
  cases hg : pipeCall (BloomChatMiner.process_history ms) 200 with
  | error e =>
    rw [hg] at hres
    simp [Except.bind] at hres
  | ok g =>
    rw [hg] at hres
    have hr : r = pyReplace (pySplitLast ':' g) (BloomChatMiner.process_history ms) [] :=
      (Except.ok.inj hres).symm
    intro hpre
    have hcolon_r : ':' ∈ r :=
      hpre.sublist.subset (colon_mem_process_history ms hrec)
    rw [hr, pyReplace] at hcolon_r
    exact pySplitLast_not_mem ':' g
      (replaceAllAux_subset _ _ _ ':' hcolon_r)

/-- Witness for C4's amended theorem at a concrete accelerate-branch
run. -/
theorem bloom_accelerate_no_transcript_echo_witness :
    defaultBloomConfig.deployment_framework ≠ "deepspeed" ∧
      (∃ m ∈ [Message.mk "user" "hello".data], recognizedRole m) ∧
      BloomChatMiner.forward defaultBloomConfig
          (fun _ _ => (Except.ok [] : Except Unit (List Char)))
          (fun _ _ => Except.ok "<human>: hello\nfoo".data)
          [Message.mk "user" "hello".data] =
        Except.ok " hello\nfoo".data ∧
      ¬ BloomChatMiner.process_history [Message.mk "user" "hello".data] <+:
          " hello\nfoo".data :=
  ⟨by decide, ⟨Message.mk "user" "hello".data, by decide⟩, rfl,
    bloom_accelerate_no_transcript_echo defaultBloomConfig
      (fun _ _ => (Except.ok [] : Except Unit (List Char)))
      (fun _ _ => Except.ok "<human>: hello\nfoo".data)
      [Message.mk "user" "hello".data] " hello\nfoo".data
      (by decide) ⟨Message.mk "user" "hello".data, by decide⟩ rfl⟩

/-- Counterexample to C4 as stated: in the deepspeed branch, for the
example transcript `[{"role": "user", "content": "hello"}]` and the
decoded model output `"<human><human>: hello\n: hello\n"`, stripping the
non-overlapping occurrences of the transcript recreates it, and the
returned string is exactly the formatted transcript — which therefore
contains it as a prefix. -/
theorem bloom_echo_strip_counterexample :
    BloomChatMiner.forward
        (BloomConfig.mk "deepspeed" "sambanovasystems/BLOOMChat-176B-v1" 100)
        (fun _ _ => (Except.ok "<human><human>: hello\n: hello\n".data :
          Except Unit (List Char)))
        (fun _ _ => Except.ok []) [Message.mk "user" "hello".data] =
      Except.ok "<human>: hello\n".data ∧
    BloomChatMiner.process_history [Message.mk "user" "hello".data] <+:
        "<human>: hello\n".data :=
  ⟨rfl, [], rfl⟩
